import Mathlib

/-!
Verification of the round-resolution and elimination engine of the
rock-paper-scissors-lizard-Spock tournament program (src/rpsls.cpp).

The C++ source is shallowly embedded: each Lean definition translates one
function of the source, stripped of its printing side effects.  Machine
integers stay within ranges where overflow is impossible (player counts,
win/loss counters), so they are modelled as Nat, and net scores
(wins - losses, possibly negative) as Int.  Player pointers are modelled by
numeric player identities.
-/

/-- The five choices, from `enum class Choice` in src/rpsls.cpp. -/
inductive Choice where
  | rock
  | scissors
  | paper
  | lizard
  | spock
deriving DecidableEq, Repr, Fintype

/-- Result of an ordered duel, from `enum class DuelResult`. -/
inductive DuelResult where
  | win
  | lose
  | draw
deriving DecidableEq, Repr, Fintype

namespace GameRules

/-- Translation of `GameRules::getWinsAgainst`: the keys of the inner map for
each choice (the justification strings are presentation-only and dropped). -/
def winsAgainst : Choice → List Choice
  | Choice.scissors => [Choice.paper, Choice.lizard]
  | Choice.paper => [Choice.rock, Choice.spock]
  | Choice.rock => [Choice.lizard, Choice.scissors]
  | Choice.lizard => [Choice.spock, Choice.paper]
  | Choice.spock => [Choice.scissors, Choice.rock]

/-- Translation of `GameRules::compare`: equal choices draw; otherwise the
first choice wins exactly when the second appears in its wins-against table,
and loses otherwise. -/
def compare (choice1 choice2 : Choice) : DuelResult :=
  if choice1 = choice2 then DuelResult.draw
  else if choice2 ∈ winsAgainst choice1 then DuelResult.win
  else DuelResult.lose

end GameRules

/-- The ten winning ordered pairs exactly as the specification enumerates
them: Scissors beats Paper and Lizard; Paper beats Rock and Spock; Rock beats
Lizard and Scissors; Lizard beats Spock and Paper; Spock beats Scissors and
Rock.  Stated from the spec text, to be compared against the code's table. -/
def specWinningPairs : List (Choice × Choice) :=
  [(Choice.scissors, Choice.paper), (Choice.scissors, Choice.lizard),
   (Choice.paper, Choice.rock), (Choice.paper, Choice.spock),
   (Choice.rock, Choice.lizard), (Choice.rock, Choice.scissors),
   (Choice.lizard, Choice.spock), (Choice.lizard, Choice.paper),
   (Choice.spock, Choice.scissors), (Choice.spock, Choice.rock)]

/-- Per-round score record, from `struct PlayerScore`. -/
structure PlayerScore where
  player : Nat
  choice : Choice
  wins : Nat
  losses : Nat
deriving DecidableEq, Repr

/-- `PlayerScore::getNetScore`: wins minus losses, an `int` in the source. -/
def PlayerScore.getNetScore (s : PlayerScore) : Int :=
  (s.wins : Int) - (s.losses : Int)

/-- One iteration of the inner loop of `RoundManager::calculateScores`, as it
updates the outer entry `scores[i]`: a win increments its wins, a loss its
losses, a draw changes nothing. -/
def duelFst (s t : PlayerScore) : PlayerScore :=
  match GameRules.compare s.choice t.choice with
  | DuelResult.win => { s with wins := s.wins + 1 }
  | DuelResult.lose => { s with losses := s.losses + 1 }
  | DuelResult.draw => s

/-- The same iteration as it updates the inner entry `scores[j]`. -/
def duelSnd (s t : PlayerScore) : PlayerScore :=
  match GameRules.compare s.choice t.choice with
  | DuelResult.win => { t with losses := t.losses + 1 }
  | DuelResult.lose => { t with wins := t.wins + 1 }
  | DuelResult.draw => t

/-- The triangular double loop of `RoundManager::calculateScores` (for each i,
for each j greater than i, duel entries i and j).  Each recursion level is one
outer iteration: the head duels every later entry (accumulating its own
updates left to right, and leaving each later entry with its update from the
head), then the loop continues on the updated tail. -/
def calcScores : List PlayerScore → List PlayerScore
  | [] => []
  | s :: rest => (rest.foldl duelFst s) :: calcScores (rest.map (duelSnd s))
termination_by l => l.length
decreasing_by simp

/-- `RoundManager::calculateScores`: build one zero-initialised score record
per (player, choice) entry, then run every pairwise duel. -/
def calculateScores (choices : List (Nat × Choice)) : List PlayerScore :=
  calcScores (choices.map (fun pc => ⟨pc.1, pc.2, 0, 0⟩))

/-- How many choices in `cs` the choice `c` wins against. -/
def winCount (c : Choice) (cs : List Choice) : Nat :=
  cs.countP (fun d => decide (GameRules.compare c d = DuelResult.win))

/-- How many choices in `cs` the choice `c` loses against. -/
def lossCount (c : Choice) (cs : List Choice) : Nat :=
  cs.countP (fun d => decide (GameRules.compare c d = DuelResult.lose))

/-- Closed form of one entry after a full round against the choices `cs`. -/
def addCounts (cs : List Choice) (t : PlayerScore) : PlayerScore :=
  { t with
      wins := t.wins + winCount t.choice cs,
      losses := t.losses + lossCount t.choice cs }

/-- Total wins recorded in a score list. -/
def sumWins (l : List PlayerScore) : Nat := (l.map PlayerScore.wins).sum

/-- Total losses recorded in a score list. -/
def sumLosses (l : List PlayerScore) : Nat := (l.map PlayerScore.losses).sum

/-- The running-minimum loop of `RoundManager::determineLosers`, started from
`scores[0]` and folded over the whole score list. -/
def foldMinNet (init : Int) (scores : List PlayerScore) : Int :=
  scores.foldl (fun m t => min m t.getNetScore) init

/-- The running-maximum loop of `RoundManager::determineLosers`. -/
def foldMaxNet (init : Int) (scores : List PlayerScore) : Int :=
  scores.foldl (fun m t => max m t.getNetScore) init

/-- `RoundManager::determineLosers`, printing removed.  On an empty score
list the source reads `scores[0]` out of bounds, which has no defined result;
the embedding returns `none` there.  Otherwise: if the minimum and maximum
net score coincide the round is a total tie and the loser list is empty
(replay); otherwise the losers are exactly the entries whose net score equals
the minimum. -/
def determineLosers (scores : List PlayerScore) : Option (List Nat) :=
  match scores with
  | [] => none
  | s :: rest =>
    let minNetScore := foldMinNet s.getNetScore (s :: rest)
    let maxNetScore := foldMaxNet s.getNetScore (s :: rest)
    if minNetScore = maxNetScore then some []
    else some (((s :: rest).filter
      (fun t => t.getNetScore = minNetScore)).map PlayerScore.player)

/-- The score-then-eliminate pipeline of `RoundManager::executeRound`
(choice collection and printing removed): compute the scores of the collected
(player, choice) entries and determine the losers. -/
def runRound (choices : List (Nat × Choice)) : Option (List Nat) :=
  determineLosers (calculateScores choices)

/-- The group-size schedule of `GroupDivider::divideIntoGroups`: `n / 4`
groups of four by default; a remainder of 1 turns one four into a three and
a two; a remainder of 2 or 3 adds one group of that size. -/
def groupSizes (n : Nat) : List Nat :=
  let numFours := n / 4
  let remainder := n % 4
  if remainder = 0 then List.replicate numFours 4
  else if remainder = 1 then List.replicate (numFours - 1) 4 ++ [3, 2]
  else if remainder = 2 then List.replicate numFours 4 ++ [2]
  else List.replicate numFours 4 ++ [3]

/-- The group-building loop of `GroupDivider::divideIntoGroups`: take
consecutive slices of the shuffled list, one per scheduled size (the source
guards the index against the end of the list, hence `take`). -/
def splitSizes : List Nat → List Nat → List (List Nat)
  | _, [] => []
  | l, s :: ss => l.take s :: splitSizes (l.drop s) ss

/-- `GroupDivider::divideIntoGroups` on an already-shuffled player list; the
uniform shuffle is modelled by quantifying theorems over every input order. -/
def divideIntoGroups (shuffled : List Nat) : List (List Nat) :=
  splitSizes shuffled (groupSizes shuffled.length)

/-- The guard of `Game::playRound`: groups are formed only when more than
five players are active; otherwise all active players form a single round. -/
def playRoundUsesGroups (numActive : Nat) : Bool :=
  numActive > 5

/-- The loser-deactivation loop shared by `Game::playGroupRound` and
`Game::playRound`: for each loser, `setActive(false)` on its entry of the
roster's activity flags. -/
def deactivate (actives : List Bool) (losers : List Nat) : List Bool :=
  losers.foldl (fun st l => st.set l false) actives

/-- One state transition of the tournament loop (`Game::run`): the only
mutation of the `active` flags after setup is deactivating the losers of a
resolved round or group round.  An arbitrary loser list over-approximates
every loser set the round manager can produce. -/
inductive TournStep : List Bool → List Bool → Prop
  | round (s : List Bool) (losers : List Nat) : TournStep s (deactivate s losers)

/-- A concrete score list used to witness the elimination-policy theorem:
player 0 holds one win, player 1 one loss. -/
def sampleScores : List PlayerScore :=
  [⟨0, Choice.rock, 1, 0⟩, ⟨1, Choice.scissors, 0, 1⟩]

/-- A concrete seven-player roster used to witness the partitioner theorem. -/
def samplePlayers : List Nat := [0, 1, 2, 3, 4, 5, 6]

/-- Helper: a choice never beats itself; `compare` on the diagonal draws. -/
theorem cmp_self (a : Choice) : GameRules.compare a a = DuelResult.draw := by
  cases a <;> rfl

/-- Helper: reversing the order of a duel swaps win and lose. -/
theorem cmp_flip (a b : Choice) :
    GameRules.compare b a =
      (match GameRules.compare a b with
        | DuelResult.win => DuelResult.lose
        | DuelResult.lose => DuelResult.win
        | DuelResult.draw => DuelResult.draw) := by
  revert a b; decide

/-- Helper: a duel draws exactly when the two choices are equal. -/
theorem cmp_draw_iff (a b : Choice) :
    GameRules.compare a b = DuelResult.draw ↔ a = b := by
  revert a b; decide

/-- Helper: losing in one order is winning in the other. -/
theorem cmp_lose_iff_win (a b : Choice) :
    GameRules.compare a b = DuelResult.lose ↔
      GameRules.compare b a = DuelResult.win := by
  revert a b; decide

/-- Claim C1: `compare a b` returns Draw exactly when `a = b`, returns Win
exactly when `(a, b)` is one of the 10 stated winning pairs, and returns Lose
for every other ordered pair. -/
theorem compare_matches_stated_table (a b : Choice) :
    (GameRules.compare a b = DuelResult.draw ↔ a = b)
    ∧ (GameRules.compare a b = DuelResult.win ↔ (a, b) ∈ specWinningPairs)
    ∧ (GameRules.compare a b = DuelResult.lose ↔
        (a ≠ b ∧ (a, b) ∉ specWinningPairs)) := by
  revert a b; decide

/-- Claim C4: for distinct choices the two orderings of `compare` are
opposite, one Win and one Lose, never both Win and never both Draw. -/
theorem compare_antisymmetric (a b : Choice) (hab : a ≠ b) :
    ((GameRules.compare a b = DuelResult.win ∧
      GameRules.compare b a = DuelResult.lose)
     ∨ (GameRules.compare a b = DuelResult.lose ∧
        GameRules.compare b a = DuelResult.win))
    ∧ ¬(GameRules.compare a b = DuelResult.win ∧
        GameRules.compare b a = DuelResult.win)
    ∧ ¬(GameRules.compare a b = DuelResult.draw ∧
        GameRules.compare b a = DuelResult.draw) := by
  revert hab; revert a b; decide

/-- Witness for C4 at the concrete pair (Rock, Scissors). -/
theorem compare_antisymmetric_witness :
    Choice.rock ≠ Choice.scissors
    ∧ (((GameRules.compare Choice.rock Choice.scissors = DuelResult.win ∧
         GameRules.compare Choice.scissors Choice.rock = DuelResult.lose)
        ∨ (GameRules.compare Choice.rock Choice.scissors = DuelResult.lose ∧
           GameRules.compare Choice.scissors Choice.rock = DuelResult.win))
       ∧ ¬(GameRules.compare Choice.rock Choice.scissors = DuelResult.win ∧
           GameRules.compare Choice.scissors Choice.rock = DuelResult.win)
       ∧ ¬(GameRules.compare Choice.rock Choice.scissors = DuelResult.draw ∧
           GameRules.compare Choice.scissors Choice.rock = DuelResult.draw)) :=
  ⟨by decide, compare_antisymmetric Choice.rock Choice.scissors (by decide)⟩

theorem duelSnd_choice (s t : PlayerScore) : (duelSnd s t).choice = t.choice := by
  cases h : GameRules.compare s.choice t.choice <;> simp [duelSnd, h]

theorem duelSnd_player (s t : PlayerScore) : (duelSnd s t).player = t.player := by
  cases h : GameRules.compare s.choice t.choice <;> simp [duelSnd, h]

theorem winCount_self_cons (c : Choice) (cs : List Choice) :
    winCount c (c :: cs) = winCount c cs := by
  simp [winCount, List.countP_cons, cmp_self]

theorem lossCount_self_cons (c : Choice) (cs : List Choice) :
    lossCount c (c :: cs) = lossCount c cs := by
  simp [lossCount, List.countP_cons, cmp_self]

theorem foldl_duelFst (rest : List PlayerScore) (s : PlayerScore) :
    rest.foldl duelFst s =
      { s with
          wins := s.wins + winCount s.choice (rest.map PlayerScore.choice),
          losses := s.losses + lossCount s.choice (rest.map PlayerScore.choice) } := by
  induction rest generalizing s with
  | nil => simp [winCount, lossCount]
  | cons t rest ih =>
    rw [List.foldl_cons, ih]
    cases h : GameRules.compare s.choice t.choice <;>
      simp [duelFst, h, winCount, lossCount, List.countP_cons] <;> omega

theorem addCounts_duelSnd (s t : PlayerScore) (cs : List Choice) :
    addCounts cs (duelSnd s t) = addCounts (s.choice :: cs) t := by
  have hflip := cmp_flip s.choice t.choice
  cases h : GameRules.compare s.choice t.choice <;> rw [h] at hflip <;>
    simp [duelSnd, addCounts, h, hflip, winCount, lossCount, List.countP_cons] <;> omega

theorem calcScores_closed (l : List PlayerScore) :
    calcScores l = l.map (addCounts (l.map PlayerScore.choice)) := by
  induction l using calcScores.induct with
  | case1 => simp [calcScores]
  | case2 s rest ih =>
    simp only [calcScores]
    rw [ih]
    have hch : (rest.map (duelSnd s)).map PlayerScore.choice
        = rest.map PlayerScore.choice := by
      simp [List.map_map, Function.comp_def, duelSnd_choice]
    rw [hch, foldl_duelFst, List.map_map]
    have hcomp : addCounts (rest.map PlayerScore.choice) ∘ duelSnd s
        = addCounts (s.choice :: rest.map PlayerScore.choice) :=
      funext fun t => addCounts_duelSnd s t (rest.map PlayerScore.choice)
    rw [hcomp]
    simp [addCounts, winCount_self_cons, lossCount_self_cons]

theorem calculateScores_closed (choices : List (Nat × Choice)) :
    calculateScores choices =
      choices.map (fun pc =>
        addCounts (choices.map Prod.snd) ⟨pc.1, pc.2, 0, 0⟩) := by
  unfold calculateScores
  rw [calcScores_closed]
  have h1 : (choices.map fun pc => (⟨pc.1, pc.2, 0, 0⟩ : PlayerScore)).map
      PlayerScore.choice = choices.map Prod.snd := by
    simp [List.map_map, Function.comp_def]
  rw [h1, List.map_map]
  rfl

theorem sum_map_winCount_cons (outer : List Choice) (d : Choice) (inner : List Choice) :
    (outer.map (fun x => winCount x (d :: inner))).sum
      = (outer.map (fun x => winCount x inner)).sum
        + outer.countP (fun x => decide (GameRules.compare x d = DuelResult.win)) := by
  induction outer with
  | nil => simp
  | cons y outer ih =>
    simp only [List.map_cons, List.sum_cons, ih, List.countP_cons]
    have hy : winCount y (d :: inner)
        = winCount y inner
          + (if GameRules.compare y d = DuelResult.win then 1 else 0) := by
      simp [winCount, List.countP_cons]
    rw [hy]
    by_cases hc : GameRules.compare y d = DuelResult.win <;> simp [hc] <;> omega

theorem sum_map_lossCount_cons (outer : List Choice) (d : Choice) (inner : List Choice) :
    (outer.map (fun x => lossCount x (d :: inner))).sum
      = (outer.map (fun x => lossCount x inner)).sum
        + outer.countP (fun x => decide (GameRules.compare x d = DuelResult.lose)) := by
  induction outer with
  | nil => simp
  | cons y outer ih =>
    simp only [List.map_cons, List.sum_cons, ih, List.countP_cons]
    have hy : lossCount y (d :: inner)
        = lossCount y inner
          + (if GameRules.compare y d = DuelResult.lose then 1 else 0) := by
      simp [lossCount, List.countP_cons]
    rw [hy]
    by_cases hc : GameRules.compare y d = DuelResult.lose <;> simp [hc] <;> omega

theorem countP_beats_eq_lossCount (d : Choice) (l : List Choice) :
    l.countP (fun x => decide (GameRules.compare x d = DuelResult.win))
      = lossCount d l := by
  unfold lossCount
  apply List.countP_congr
  intro x _
  simp only [decide_eq_true_eq]
  exact (cmp_lose_iff_win d x).symm

theorem countP_losesto_eq_winCount (d : Choice) (l : List Choice) :
    l.countP (fun x => decide (GameRules.compare x d = DuelResult.lose))
      = winCount d l := by
  unfold winCount
  apply List.countP_congr
  intro x _
  simp only [decide_eq_true_eq]
  exact cmp_lose_iff_win x d

theorem sum_winCount_eq_sum_lossCount (cs : List Choice) :
    (cs.map (fun x => winCount x cs)).sum
      = (cs.map (fun x => lossCount x cs)).sum := by
  induction cs with
  | nil => simp
  | cons d rest ih =>
    simp only [List.map_cons, List.sum_cons]
    rw [sum_map_winCount_cons, sum_map_lossCount_cons,
        countP_beats_eq_lossCount, countP_losesto_eq_winCount,
        winCount_self_cons, lossCount_self_cons, ih]
    omega

/-- Claim C5: in every evaluated round, total wins equal total losses. -/
theorem round_wins_balance (choices : List (Nat × Choice)) :
    sumWins (calculateScores choices) = sumLosses (calculateScores choices) := by
  rw [calculateScores_closed]
  unfold sumWins sumLosses
  rw [List.map_map, List.map_map]
  simp only [Function.comp_def, addCounts]
  have hw : choices.map (fun pc => 0 + winCount pc.2 (choices.map Prod.snd))
      = (choices.map Prod.snd).map
          (fun x => winCount x (choices.map Prod.snd)) := by
    simp [List.map_map, Function.comp_def]
  have hl : choices.map (fun pc => 0 + lossCount pc.2 (choices.map Prod.snd))
      = (choices.map Prod.snd).map
          (fun x => lossCount x (choices.map Prod.snd)) := by
    simp [List.map_map, Function.comp_def]
  rw [hw, hl]
  exact sum_winCount_eq_sum_lossCount (choices.map Prod.snd)

/-- Claim C6: permuting the round entries permutes the produced score
records, so each player identity receives the same wins, losses and net
score under both orderings. -/
theorem calculateScores_perm (c1 c2 : List (Nat × Choice)) (hperm : c1.Perm c2) :
    (calculateScores c1).Perm (calculateScores c2) := by
  rw [calculateScores_closed, calculateScores_closed]
  have hs : (c2.map Prod.snd).Perm (c1.map Prod.snd) := (hperm.map Prod.snd).symm
  have hw : ∀ x : Choice, winCount x (c2.map Prod.snd)
      = winCount x (c1.map Prod.snd) := fun x => hs.countP_eq _
  have hl : ∀ x : Choice, lossCount x (c2.map Prod.snd)
      = lossCount x (c1.map Prod.snd) := fun x => hs.countP_eq _
  have hfun : (fun pc : Nat × Choice =>
        addCounts (c2.map Prod.snd) ⟨pc.1, pc.2, 0, 0⟩)
      = fun pc => addCounts (c1.map Prod.snd) ⟨pc.1, pc.2, 0, 0⟩ := by
    funext pc
    simp [addCounts, hw, hl]
  rw [hfun]
  exact hperm.map _

/-- Witness for C6 at a concrete two-entry round and its reversal. -/
theorem calculateScores_perm_witness :
    ([(0, Choice.rock), (1, Choice.paper)] :
        List (Nat × Choice)).Perm [(1, Choice.paper), (0, Choice.rock)]
    ∧ (calculateScores [(0, Choice.rock), (1, Choice.paper)]).Perm
        (calculateScores [(1, Choice.paper), (0, Choice.rock)]) :=
  ⟨by decide, calculateScores_perm _ _ (by decide)⟩

theorem foldMinNet_le_init (l : List PlayerScore) : ∀ i, foldMinNet i l ≤ i := by
  induction l with
  | nil => intro i; exact le_refl i
  | cons t l ih =>
    intro i
    calc foldMinNet i (t :: l) = foldMinNet (min i t.getNetScore) l := rfl
    _ ≤ min i t.getNetScore := ih _
    _ ≤ i := min_le_left _ _

theorem foldMinNet_le_mem (l : List PlayerScore) :
    ∀ i t, t ∈ l → foldMinNet i l ≤ t.getNetScore := by
  induction l with
  | nil => intro i t ht; exact absurd ht (List.not_mem_nil t)
  | cons u l ih =>
    intro i t ht
    rcases List.mem_cons.mp ht with rfl | ht
    · exact le_trans (foldMinNet_le_init l _) (min_le_right _ _)
    · exact ih _ t ht

theorem foldMinNet_attained (l : List PlayerScore) :
    ∀ i, foldMinNet i l = i ∨ ∃ t ∈ l, foldMinNet i l = t.getNetScore := by
  induction l with
  | nil => intro i; left; rfl
  | cons u l ih =>
    intro i
    have hstep : foldMinNet i (u :: l) = foldMinNet (min i u.getNetScore) l := rfl
    rcases ih (min i u.getNetScore) with h | ⟨t, ht, h⟩
    · rcases le_total i u.getNetScore with hle | hle
      · left; rw [hstep, h, min_eq_left hle]
      · right
        exact ⟨u, List.mem_cons_self u l, by rw [hstep, h, min_eq_right hle]⟩
    · right; exact ⟨t, List.mem_cons_of_mem _ ht, by rw [hstep, h]⟩

theorem foldMaxNet_ge_init (l : List PlayerScore) : ∀ i, i ≤ foldMaxNet i l := by
  induction l with
  | nil => intro i; exact le_refl i
  | cons t l ih =>
    intro i
    calc i ≤ min i t.getNetScore ⊔ i := le_max_right _ _
    _ ≤ max i t.getNetScore := by simp [le_max_right]
    _ ≤ foldMaxNet (max i t.getNetScore) l := ih _
    _ = foldMaxNet i (t :: l) := rfl

theorem foldMaxNet_ge_mem (l : List PlayerScore) :
    ∀ i t, t ∈ l → t.getNetScore ≤ foldMaxNet i l := by
  induction l with
  | nil => intro i t ht; exact absurd ht (List.not_mem_nil t)
  | cons u l ih =>
    intro i t ht
    rcases List.mem_cons.mp ht with rfl | ht
    · exact le_trans (le_max_right _ _) (foldMaxNet_ge_init l _)
    · exact ih _ t ht

theorem foldMaxNet_attained (l : List PlayerScore) :
    ∀ i, foldMaxNet i l = i ∨ ∃ t ∈ l, foldMaxNet i l = t.getNetScore := by
  induction l with
  | nil => intro i; left; rfl
  | cons u l ih =>
    intro i
    have hstep : foldMaxNet i (u :: l) = foldMaxNet (max i u.getNetScore) l := rfl
    rcases ih (max i u.getNetScore) with h | ⟨t, ht, h⟩
    · rcases le_total i u.getNetScore with hle | hle
      · right
        exact ⟨u, List.mem_cons_self u l, by rw [hstep, h, max_eq_right hle]⟩
      · left; rw [hstep, h, max_eq_left hle]
    · right; exact ⟨t, List.mem_cons_of_mem _ ht, by rw [hstep, h]⟩

theorem determineLosers_cons (s : PlayerScore) (rest : List PlayerScore) :
    determineLosers (s :: rest)
      = if foldMinNet s.getNetScore (s :: rest)
            = foldMaxNet s.getNetScore (s :: rest)
        then some []
        else some (((s :: rest).filter
          (fun t => t.getNetScore = foldMinNet s.getNetScore (s :: rest))).map
            PlayerScore.player) := rfl

/-- Claim C2: on a non-empty score list with distinct players, the
elimination step replays (empty loser list) exactly when every entry shares
one net score; otherwise it returns exactly the players whose net score is
the minimum, and some entry with a strictly greater net score survives. -/
theorem determineLosers_spec (scores : List PlayerScore)
    (hne : scores ≠ [])
    (hnd : (scores.map PlayerScore.player).Nodup) :
    ((∀ t ∈ scores, ∀ u ∈ scores, t.getNetScore = u.getNetScore) →
        determineLosers scores = some [])
    ∧ ((¬ ∀ t ∈ scores, ∀ u ∈ scores, t.getNetScore = u.getNetScore) →
        ∃ m losers, determineLosers scores = some losers
          ∧ (∀ t ∈ scores, m ≤ t.getNetScore)
          ∧ (∃ t ∈ scores, t.getNetScore = m)
          ∧ (∀ t ∈ scores, (t.player ∈ losers ↔ t.getNetScore = m))
          ∧ (∃ t ∈ scores, m < t.getNetScore ∧ t.player ∉ losers)) := by
  obtain ⟨s, rest, rfl⟩ : ∃ s rest, scores = s :: rest := by
    cases scores with
    | nil => exact absurd rfl hne
    | cons s rest => exact ⟨s, rest, rfl⟩
  set m := foldMinNet s.getNetScore (s :: rest) with hm
  set M := foldMaxNet s.getNetScore (s :: rest) with hM
  have hmle : ∀ t ∈ s :: rest, m ≤ t.getNetScore :=
    fun t ht => foldMinNet_le_mem _ _ t ht
  have hMge : ∀ t ∈ s :: rest, t.getNetScore ≤ M :=
    fun t ht => foldMaxNet_ge_mem _ _ t ht
  have hmatt : ∃ t ∈ s :: rest, t.getNetScore = m := by
    rcases foldMinNet_attained (s :: rest) s.getNetScore with h | ⟨t, ht, h⟩
    · exact ⟨s, List.mem_cons_self s rest, h.symm⟩
    · exact ⟨t, ht, h.symm⟩
  have hMatt : ∃ t ∈ s :: rest, t.getNetScore = M := by
    rcases foldMaxNet_attained (s :: rest) s.getNetScore with h | ⟨t, ht, h⟩
    · exact ⟨s, List.mem_cons_self s rest, h.symm⟩
    · exact ⟨t, ht, h.symm⟩
  constructor
  · intro hall
    have hmM : m = M := by
      obtain ⟨t, ht, hts⟩ := hmatt
      obtain ⟨u, hu, hus⟩ := hMatt
      rw [← hts, ← hus]
      exact hall t ht u hu
    rw [determineLosers_cons, if_pos hmM]
  · intro hnall
    have hmM : m ≠ M := by
      intro h
      apply hnall
      intro t ht u hu
      have h1 : t.getNetScore = m := le_antisymm (h ▸ hMge t ht) (hmle t ht)
      have h2 : u.getNetScore = m := le_antisymm (h ▸ hMge u hu) (hmle u hu)
      rw [h1, h2]
    have hdl : determineLosers (s :: rest)
        = some (((s :: rest).filter
            (fun t => t.getNetScore = m)).map PlayerScore.player) := by
      rw [determineLosers_cons, if_neg hmM]
    have hiff : ∀ t ∈ s :: rest,
        (t.player ∈ ((s :: rest).filter
            (fun t => t.getNetScore = m)).map PlayerScore.player
          ↔ t.getNetScore = m) := by
      intro t ht
      constructor
      · intro htl
        obtain ⟨u, hu, hup⟩ := List.mem_map.mp htl
        have hu2 := List.mem_filter.mp hu
        have hueq : u = t := List.inj_on_of_nodup_map hnd hu2.1 ht hup
        rw [← hueq]
        exact of_decide_eq_true hu2.2
      · intro htm
        exact List.mem_map.mpr ⟨t, List.mem_filter.mpr ⟨ht, by simp [htm]⟩, rfl⟩
    refine ⟨m, _, hdl, hmle, hmatt, hiff, ?_⟩
    obtain ⟨t, ht, htM⟩ := hMatt
    have hlt : m < t.getNetScore :=
      lt_of_le_of_ne (hmle t ht) (by rw [htM]; exact hmM)
    refine ⟨t, ht, hlt, fun hcon => ?_⟩
    have := (hiff t ht).mp hcon
    exact absurd (this ▸ hlt) (lt_irrefl _)

/-- Claim C10: a single-entry score list has coinciding minimum and maximum
net score, so the elimination step always replays and the sole player is
never eliminated. -/
theorem determineLosers_singleton (s : PlayerScore) :
    foldMinNet s.getNetScore [s] = foldMaxNet s.getNetScore [s]
    ∧ determineLosers [s] = some [] := by
  have h : foldMinNet s.getNetScore [s] = foldMaxNet s.getNetScore [s] := by
    simp [foldMinNet, foldMaxNet]
  exact ⟨h, by rw [determineLosers_cons, if_pos h]⟩

/-- Claim C9: on an empty round-entry list the embedded pipeline yields no
defined loser list at all, because `determineLosers` reads `scores[0]` out of
bounds in the source; the source neither aborts nor reports there. -/
theorem empty_round_no_result :
    runRound [] = none ∧ determineLosers [] = none :=
  ⟨by simp [runRound, calculateScores, calcScores, determineLosers], rfl⟩

/-- Claim C7: in a two-player group, distinct choices yield exactly one
loser with the other player surviving, and equal choices yield a replay. -/
theorem two_player_round (p q : Nat) (a b : Choice) (hpq : p ≠ q) :
    (a = b → runRound [(p, a), (q, b)] = some [])
    ∧ (a ≠ b →
        (runRound [(p, a), (q, b)] = some [p] ∧ q ∉ ([p] : List Nat))
        ∨ (runRound [(p, a), (q, b)] = some [q] ∧ p ∉ ([q] : List Nat))) := by
  have hqp : q ≠ p := Ne.symm hpq
  constructor
  · rintro rfl
    have h := cmp_self a
    simp [runRound, calculateScores, calcScores, duelFst, duelSnd, h,
      determineLosers, foldMinNet, foldMaxNet, PlayerScore.getNetScore]
  · intro hab
    cases h : GameRules.compare a b with
    | draw =>
      exact absurd (cmp_draw_iff a b |>.mp h) hab
    | win =>
      refine Or.inr ⟨?_, by simp [hpq]⟩
      simp [runRound, calculateScores, calcScores, duelFst, duelSnd, h,
        determineLosers, foldMinNet, foldMaxNet, PlayerScore.getNetScore]
    | lose =>
      refine Or.inl ⟨?_, by simp [hqp]⟩
      simp [runRound, calculateScores, calcScores, duelFst, duelSnd, h,
        determineLosers, foldMinNet, foldMaxNet, PlayerScore.getNetScore]

/-- Witness for C7 at players 0 and 1 choosing Rock and Scissors. -/
theorem two_player_round_witness :
    (0 : Nat) ≠ 1
    ∧ ((Choice.rock = Choice.scissors →
          runRound [(0, Choice.rock), (1, Choice.scissors)] = some [])
       ∧ (Choice.rock ≠ Choice.scissors →
          (runRound [(0, Choice.rock), (1, Choice.scissors)] = some [0]
              ∧ 1 ∉ ([0] : List Nat))
          ∨ (runRound [(0, Choice.rock), (1, Choice.scissors)] = some [1]
              ∧ 0 ∉ ([1] : List Nat)))) :=
  ⟨by decide, two_player_round 0 1 Choice.rock Choice.scissors (by decide)⟩

theorem groupSizes_sum (n : Nat) (h6 : 6 ≤ n) : (groupSizes n).sum = n := by
  have hdm := Nat.div_add_mod n 4
  simp only [groupSizes]
  by_cases h0 : n % 4 = 0
  · rw [if_pos h0]
    simp only [List.sum_replicate, smul_eq_mul]
    omega
  · rw [if_neg h0]
    by_cases h1 : n % 4 = 1
    · rw [if_pos h1]
      simp only [List.sum_append, List.sum_replicate, smul_eq_mul,
        List.sum_cons, List.sum_nil]
      omega
    · rw [if_neg h1]
      by_cases h2 : n % 4 = 2
      · rw [if_pos h2]
        simp only [List.sum_append, List.sum_replicate, smul_eq_mul,
          List.sum_cons, List.sum_nil]
        omega
      · rw [if_neg h2]
        simp only [List.sum_append, List.sum_replicate, smul_eq_mul,
          List.sum_cons, List.sum_nil]
        omega

theorem groupSizes_mem (n : Nat) (h6 : 6 ≤ n) :
    ∀ s ∈ groupSizes n, 2 ≤ s ∧ s ≤ 4 := by
  intro s hs
  simp only [groupSizes] at hs
  by_cases h0 : n % 4 = 0
  · rw [if_pos h0] at hs
    have := List.eq_of_mem_replicate hs
    omega
  · rw [if_neg h0] at hs
    by_cases h1 : n % 4 = 1
    · rw [if_pos h1] at hs
      rcases List.mem_append.mp hs with h | h
      · have := List.eq_of_mem_replicate h
        omega
      · simp only [List.mem_cons, List.not_mem_nil, or_false] at h
        rcases h with rfl | rfl <;> omega
    · rw [if_neg h1] at hs
      by_cases h2 : n % 4 = 2
      · rw [if_pos h2] at hs
        rcases List.mem_append.mp hs with h | h
        · have := List.eq_of_mem_replicate h
          omega
        · simp only [List.mem_cons, List.not_mem_nil, or_false] at h
          subst h
          omega
      · rw [if_neg h2] at hs
        rcases List.mem_append.mp hs with h | h
        · have := List.eq_of_mem_replicate h
          omega
        · simp only [List.mem_cons, List.not_mem_nil, or_false] at h
          subst h
          omega

theorem splitSizes_join (ss : List Nat) :
    ∀ l : List Nat, ss.sum = l.length → (splitSizes l ss).flatten = l := by
  induction ss with
  | nil =>
    intro l h
    simp only [List.sum_nil] at h
    cases l with
    | nil => rfl
    | cons a l => simp at h
  | cons s ss ih =>
    intro l h
    simp only [List.sum_cons] at h
    simp only [splitSizes, List.flatten_cons]
    rw [ih (l.drop s) (by simp only [List.length_drop]; omega)]
    exact List.take_append_drop s l

theorem splitSizes_lengths (ss : List Nat) :
    ∀ l : List Nat, ss.sum ≤ l.length → (splitSizes l ss).map List.length = ss := by
  induction ss with
  | nil => intro l h; rfl
  | cons s ss ih =>
    intro l h
    simp only [List.sum_cons] at h
    simp only [splitSizes, List.map_cons]
    rw [ih (l.drop s) (by simp only [List.length_drop]; omega), List.length_take]
    congr 1
    omega

/-- Claim C3: for 6 to 40 active players the partitioner produces groups of
sizes 2 to 4 that concatenate back to the player list (so sizes sum to n and
each player is in exactly one group), following the stated remainder policy;
for 5 or fewer players the controller forms no groups at all. -/
theorem divideIntoGroups_spec (players : List Nat)
    (h6 : 6 ≤ players.length) (h40 : players.length ≤ 40) :
    (∀ g ∈ divideIntoGroups players, 2 ≤ g.length ∧ g.length ≤ 4)
    ∧ ((divideIntoGroups players).map List.length).sum = players.length
    ∧ (divideIntoGroups players).flatten = players
    ∧ (players.length % 4 = 0 →
        (divideIntoGroups players).map List.length
          = List.replicate (players.length / 4) 4)
    ∧ (players.length % 4 = 1 →
        (divideIntoGroups players).map List.length
          = List.replicate (players.length / 4 - 1) 4 ++ [3, 2])
    ∧ (players.length % 4 = 2 →
        (divideIntoGroups players).map List.length
          = List.replicate (players.length / 4) 4 ++ [2])
    ∧ (players.length % 4 = 3 →
        (divideIntoGroups players).map List.length
          = List.replicate (players.length / 4) 4 ++ [3])
    ∧ (∀ m : Nat, m ≤ 5 → playRoundUsesGroups m = false) := by
  have hsum := groupSizes_sum players.length h6
  have hlen : (divideIntoGroups players).map List.length
      = groupSizes players.length :=
    splitSizes_lengths _ _ (le_of_eq hsum)
  have hjoin : (divideIntoGroups players).flatten = players :=
    splitSizes_join _ _ hsum
  refine ⟨?_, ?_, hjoin, ?_, ?_, ?_, ?_, ?_⟩
  · intro g hg
    have hmem : g.length ∈ (divideIntoGroups players).map List.length :=
      List.mem_map_of_mem _ hg
    rw [hlen] at hmem
    exact groupSizes_mem _ h6 _ hmem
  · rw [hlen, hsum]
  · intro h0
    rw [hlen]
    simp only [groupSizes]
    rw [if_pos h0]
  · intro h1
    rw [hlen]
    simp only [groupSizes]
    rw [if_neg (by omega), if_pos h1]
  · intro h2
    rw [hlen]
    simp only [groupSizes]
    rw [if_neg (by omega), if_neg (by omega), if_pos h2]
  · intro h3
    rw [hlen]
    simp only [groupSizes]
    rw [if_neg (by omega), if_neg (by omega), if_neg (by omega)]
  · intro m hm
    simp only [playRoundUsesGroups, decide_eq_false_iff_not]
    omega

theorem deactivate_preserves_false (losers : List Nat) :
    ∀ (st : List Bool) (i : Nat), st[i]? = some false →
      (deactivate st losers)[i]? = some false := by
  induction losers with
  | nil => intro st i h; exact h
  | cons l losers ih =>
    intro st i h
    have hstep : deactivate st (l :: losers) = deactivate (st.set l false) losers :=
      rfl
    rw [hstep]
    apply ih
    by_cases hli : l = i
    · subst hli
      obtain ⟨hlt, -⟩ := List.getElem?_eq_some_iff.mp h
      rw [List.getElem?_set, if_pos rfl, if_pos hlt]
    · rw [List.getElem?_set, if_neg hli]
      exact h

/-- Claim C8: along any sequence of tournament steps, a player whose active
flag is false stays false forever: losers are never resurrected. -/
theorem active_never_resurrected (s s' : List Bool)
    (hsteps : Relation.ReflTransGen TournStep s s') (i : Nat)
    (hfalse : s[i]? = some false) : s'[i]? = some false := by
  induction hsteps with
  | refl => exact hfalse
  | tail hab hbc ih =>
    cases hbc with
    | round losers => exact deactivate_preserves_false losers _ i ih

/-- Witness for C8: a two-player roster where player 0 is already out,
player 1 loses a round, and player 0 stays out. -/
theorem active_never_resurrected_witness :
    Relation.ReflTransGen TournStep [false, true] (deactivate [false, true] [1])
    ∧ ([false, true] : List Bool)[0]? = some false
    ∧ (deactivate [false, true] [1])[0]? = some false :=
  ⟨Relation.ReflTransGen.single (TournStep.round _ _), by decide,
    active_never_resurrected _ _
      (Relation.ReflTransGen.single (TournStep.round _ _)) 0 (by decide)⟩

/-- Witness for C2 at a concrete two-entry score list with distinct net
scores: player 1 (net -1) is eliminated, player 0 (net +1) survives. -/
theorem determineLosers_spec_witness :
    sampleScores ≠ []
    ∧ (sampleScores.map PlayerScore.player).Nodup
    ∧ (((∀ t ∈ sampleScores, ∀ u ∈ sampleScores,
            t.getNetScore = u.getNetScore) →
          determineLosers sampleScores = some [])
       ∧ ((¬ ∀ t ∈ sampleScores, ∀ u ∈ sampleScores,
            t.getNetScore = u.getNetScore) →
          ∃ m losers, determineLosers sampleScores = some losers
            ∧ (∀ t ∈ sampleScores, m ≤ t.getNetScore)
            ∧ (∃ t ∈ sampleScores, t.getNetScore = m)
            ∧ (∀ t ∈ sampleScores, (t.player ∈ losers ↔ t.getNetScore = m))
            ∧ (∃ t ∈ sampleScores, m < t.getNetScore ∧ t.player ∉ losers))) :=
  ⟨by decide, by decide, determineLosers_spec sampleScores (by decide) (by decide)⟩

/-- Witness for C3 at seven players: two groups, sized four and three. -/
theorem divideIntoGroups_spec_witness :
    6 ≤ samplePlayers.length
    ∧ samplePlayers.length ≤ 40
    ∧ ((∀ g ∈ divideIntoGroups samplePlayers, 2 ≤ g.length ∧ g.length ≤ 4)
       ∧ ((divideIntoGroups samplePlayers).map List.length).sum
           = samplePlayers.length
       ∧ (divideIntoGroups samplePlayers).flatten = samplePlayers
       ∧ (samplePlayers.length % 4 = 0 →
           (divideIntoGroups samplePlayers).map List.length
             = List.replicate (samplePlayers.length / 4) 4)
       ∧ (samplePlayers.length % 4 = 1 →
           (divideIntoGroups samplePlayers).map List.length
             = List.replicate (samplePlayers.length / 4 - 1) 4 ++ [3, 2])
       ∧ (samplePlayers.length % 4 = 2 →
           (divideIntoGroups samplePlayers).map List.length
             = List.replicate (samplePlayers.length / 4) 4 ++ [2])
       ∧ (samplePlayers.length % 4 = 3 →
           (divideIntoGroups samplePlayers).map List.length
             = List.replicate (samplePlayers.length / 4) 4 ++ [3])
       ∧ (∀ m : Nat, m ≤ 5 → playRoundUsesGroups m = false)) :=
  ⟨by decide, by decide, divideIntoGroups_spec samplePlayers (by decide) (by decide)⟩
